import Mathlib

/-!
Shallow embedding of `apache_exporter.go` (digineo/apache_exporter).

The embedding models the scrape-parse-map pipeline of the exporter:

* `splitkv`          — the colon splitter for status lines (Go `splitkv`);
* `scoreboardTable`  — the fixed rune→label decode table (Go `scoreboardLabelMap`);
* `scoreboardTally`  — the scoreboard decoder (Go `updateScoreboard`), acting on an
                       association-list model of a Prometheus `GaugeVec`;
* `processLine` / `processLines` — the per-line dispatch loop of Go `collect`;
* `collect` / `Collect`          — one full collection cycle, producing the ordered
                       trace of samples sent to the metrics channel, the new
                       exporter state, and whether an error was returned.

Numbers are modelled as `ℚ`: Go parses values with `strconv.ParseFloat`; the
values the exporter handles are plain decimal literals, which `parseFloat`
below models (optional sign, digits, optional fractional part; the exponent
form and the special values Inf/NaN of `ParseFloat` are not modelled, and no
claim depends on them).  String length is the number of characters.
-/

namespace Apache

/-- ASCII whitespace as trimmed by `strings.TrimSpace` (the Unicode-only extras
of `unicode.IsSpace` do not occur in status bodies). -/
def isSpaceChar (c : Char) : Bool :=
  c = ' ' || c = '\t' || c = '\n' || c = '\r'

/-- Trim leading and trailing whitespace from a character list. -/
def trimChars (cs : List Char) : List Char :=
  ((cs.dropWhile isSpaceChar).reverse.dropWhile isSpaceChar).reverse

/-- `strings.TrimSpace`. -/
def trimStr (s : String) : String :=
  String.mk (trimChars s.toList)

/-- Go `splitkv`: empty string gives `(s, s)`; `strings.SplitN(s, ":", 2)`
yields one piece (no colon: key is the whole *untrimmed* line, value empty) or
two pieces (split at the first colon, both sides trimmed). -/
def splitkv (s : String) : String × String :=
  if s.length = 0 then (s, s)
  else if (':' : Char) ∈ s.toList then
    (trimStr (String.mk (s.toList.takeWhile (fun c => c ≠ ':'))),
     trimStr (String.mk ((s.toList.dropWhile (fun c => c ≠ ':')).tail)))
  else (s, "")

/-- Value of a digit list read in base 10. -/
def digitsVal (cs : List Char) : Nat :=
  cs.foldl (fun a c => a * 10 + (c.toNat - 48)) 0

/-- Model of `strconv.ParseFloat` for the decimal literals that occur in
status bodies: optional sign, then digits with an optional fractional part;
anything else fails. -/
def parseFloat (s : String) : Option ℚ :=
  let cs := s.toList
  let signed : Bool × List Char :=
    match cs with
    | '-' :: t => (true, t)
    | '+' :: t => (false, t)
    | t => (false, t)
  let neg := signed.1
  let body := signed.2
  let intPart := body.takeWhile Char.isDigit
  let rest := body.dropWhile Char.isDigit
  match rest with
  | [] =>
    if intPart.isEmpty then none
    else some ((if neg then -1 else 1) * (digitsVal intPart : ℚ))
  | '.' :: fracRest =>
    let fracPart := fracRest.takeWhile Char.isDigit
    let rest2 := fracRest.dropWhile Char.isDigit
    if ¬ rest2.isEmpty then none
    else if intPart.isEmpty ∧ fracPart.isEmpty then none
    else some ((if neg then -1 else 1) *
      ((digitsVal intPart : ℚ) + (digitsVal fracPart : ℚ) / (10 ^ fracPart.length)))
  | _ => none

/-! ### GaugeVec model

A Prometheus `GaugeVec` with one label is a map from label value to gauge
value; children are created on first access.  We model it as an association
list in creation order. -/

abbrev GaugeVec := List (String × ℚ)

/-- `WithLabelValues l` without further action: create the child at 0 if absent. -/
def gvWithLabel (g : GaugeVec) (l : String) : GaugeVec :=
  match g with
  | [] => [(l, 0)]
  | p :: rest => if p.1 = l then p :: rest else p :: gvWithLabel rest l

/-- `WithLabelValues(l).Set(v)`. -/
def gvSet (g : GaugeVec) (l : String) (v : ℚ) : GaugeVec :=
  match g with
  | [] => [(l, v)]
  | p :: rest => if p.1 = l then (l, v) :: rest else p :: gvSet rest l v

/-- `WithLabelValues(l).Inc()`. -/
def gvInc (g : GaugeVec) (l : String) : GaugeVec :=
  match g with
  | [] => [(l, 1)]
  | p :: rest => if p.1 = l then (p.1, p.2 + 1) :: rest else p :: gvInc rest l

/-- Current value of a child (0 when absent). -/
def gvValue (g : GaugeVec) (l : String) : ℚ :=
  match g with
  | [] => 0
  | p :: rest => if p.1 = l then p.2 else gvValue rest l

/-- Whether a child with this label exists. -/
def gvHasLabel (g : GaugeVec) (l : String) : Bool :=
  match g with
  | [] => false
  | p :: rest => p.1 = l || gvHasLabel rest l

/-- Sum of all children's values. -/
def gvSum : GaugeVec → ℚ
  | [] => 0
  | p :: rest => p.2 + gvSum rest

/-! ### Scoreboard decoder -/

/-- Go `scoreboardLabelMap`, in declaration order. -/
def scoreboardTable : List (Char × String) :=
  [('_', "idle"), ('S', "startup"), ('R', "read"), ('W', "reply"),
   ('K', "keepalive"), ('D', "dns"), ('C', "closing"), ('L', "logging"),
   ('G', "graceful_stop"), ('I', "idle_cleanup"), ('.', "open_slot")]

/-- Lookup in the decode table (`label, ok := scoreboardLabelMap[status]`). -/
def scoreboardLabelMap (c : Char) : Option String :=
  (scoreboardTable.find? (fun p => p.1 = c)).map Prod.snd

/-- The 11 fixed category labels. -/
def fixedScoreboardLabels : List String :=
  scoreboardTable.map Prod.snd

/-- Label a scoreboard character decodes to: the table entry, or the literal
character itself (`label = string(status)`). -/
def decodeChar (c : Char) : String :=
  (scoreboardLabelMap c).getD (String.mk [c])

/-- The scoreboard vec right after `Reset()` and the registration loop
`for _, v := range scoreboardLabelMap { e.scoreboard.WithLabelValues(v) }`. -/
def scoreboardInit : GaugeVec :=
  fixedScoreboardLabels.foldl gvWithLabel []

/-- Go `updateScoreboard`: reset, register every fixed label at 0, then
increment one child per character of the scoreboard string. -/
def scoreboardTally (s : String) : GaugeVec :=
  s.toList.foldl (fun acc c => gvInc acc (decodeChar c)) scoreboardInit

/-! ### Exporter state and the collection cycle -/

/-- One sample sent on the metrics channel, identified by metric (and label
value for the vector metrics) together with the sample value. -/
inductive Sample where
  | up (v : ℚ)
  | accessesTotal (v : ℚ)
  | sentBytesTotal (v : ℚ)
  | uptime (v : ℚ)
  | cpuload (v : ℚ)
  | workers (state : String) (v : ℚ)
  | scoreboard (state : String) (v : ℚ)
  | connections (state : String) (v : ℚ)
  | scrapeFailures (v : ℚ)
deriving DecidableEq

/-- The mutable metric state held by an `Exporter` value across cycles: the
`cpuload` gauge, the three gauge vectors and the scrape-failure counter. -/
structure ExporterState where
  cpuload : ℚ
  workers : GaugeVec
  scoreboard : GaugeVec
  connections : GaugeVec
  scrapeFailures : ℚ
deriving DecidableEq

/-- A freshly constructed exporter (`NewExporter`): empty vectors, zero gauges. -/
def initialExporter : ExporterState :=
  ⟨0, [], [], [], 0⟩

/-- Result of the parsing loop (or of one iteration of it): samples sent,
updated state, the `connectionInfo` flag, and whether a parse error was
returned. -/
structure LoopResult where
  samples : List Sample
  state : ExporterState
  connInfo : Bool
  failed : Bool
deriving DecidableEq

/-- Common shape of the numeric `case` arms: `val, err = strconv.ParseFloat(v, 64)`;
on success emit/update and possibly set `connectionInfo`; on failure the arm
does nothing and `err != nil` aborts the loop afterwards. -/
def numHandler (st : ExporterState) (ci : Bool) (v : String)
    (emit : ℚ → List Sample) (upd : ℚ → ExporterState) (setCi : Bool) : LoopResult :=
  match parseFloat v with
  | some val => ⟨emit val, upd val, ci || setCi, false⟩
  | none => ⟨[], st, ci, true⟩

/-- The `switch key` dispatch of Go `collect` for one already-split line. -/
def dispatchKey (st : ExporterState) (ci : Bool) (key v : String) : LoopResult :=
  match key with
  | "Total Accesses" =>
    numHandler st ci v (fun val => [Sample.accessesTotal val]) (fun _ => st) false
  | "Total kBytes" =>
    numHandler st ci v (fun val => [Sample.sentBytesTotal (val * 1024)]) (fun _ => st) false
  | "CPULoad" =>
    numHandler st ci v (fun _ => []) (fun val => { st with cpuload := val }) false
  | "Uptime" =>
    numHandler st ci v (fun val => [Sample.uptime val]) (fun _ => st) false
  | "BusyWorkers" =>
    numHandler st ci v (fun _ => [])
      (fun val => { st with workers := gvSet st.workers "busy" val }) false
  | "IdleWorkers" =>
    numHandler st ci v (fun _ => [])
      (fun val => { st with workers := gvSet st.workers "idle" val }) false
  | "Scoreboard" =>
    ⟨(scoreboardTally v).map (fun p => Sample.scoreboard p.1 p.2),
     { st with scoreboard := scoreboardTally v }, ci, false⟩
  | "ConnsTotal" =>
    numHandler st ci v (fun _ => [])
      (fun val => { st with connections := gvSet st.connections "total" val }) true
  | "ConnsAsyncWriting" =>
    numHandler st ci v (fun _ => [])
      (fun val => { st with connections := gvSet st.connections "writing" val }) true
  | "ConnsAsyncKeepAlive" =>
    numHandler st ci v (fun _ => [])
      (fun val => { st with connections := gvSet st.connections "keepalive" val }) true
  | "ConnsAsyncClosing" =>
    numHandler st ci v (fun _ => [])
      (fun val => { st with connections := gvSet st.connections "closing" val }) true
  | _ => ⟨[], st, ci, false⟩

/-- One iteration of the parsing loop: split the line and dispatch. -/
def processLine (st : ExporterState) (ci : Bool) (l : String) : LoopResult :=
  dispatchKey st ci (splitkv l).1 (splitkv l).2

/-- The parsing loop of Go `collect`: stop at the first line whose arm set a
parse error (`if err != nil { return err }`). -/
def processLines (st : ExporterState) (ci : Bool) : List String → LoopResult
  | [] => ⟨[], st, ci, false⟩
  | l :: rest =>
    let r := processLine st ci l
    if r.failed then ⟨r.samples, r.state, r.connInfo, true⟩
    else
      let r2 := processLines r.state r.connInfo rest
      ⟨r.samples ++ r2.samples, r2.state, r2.connInfo, r2.failed⟩

/-- `strings.Split(body, "\n")` over a character list. -/
def splitLinesAux : List Char → List Char → List String
  | [], acc => [String.mk acc.reverse]
  | c :: cs, acc =>
    if c = '\n' then String.mk acc.reverse :: splitLinesAux cs []
    else splitLinesAux cs (c :: acc)

/-- `strings.Split(body, "\n")`. -/
def splitLines (s : String) : List String :=
  splitLinesAux s.toList []

/-- Outcome of the HTTP fetch as seen by `collect` once the request object was
built: either `client.Do` failed (transport error), or a response arrived with
a status code, the bytes `ioutil.ReadAll` produced, and whether reading the
body returned an error. -/
inductive FetchResult where
  | transportError
  | response (statusCode : Nat) (body : String) (readErr : Bool)
deriving DecidableEq

/-- The samples a `GaugeVec.Collect` call sends, via a given constructor. -/
def gvCollect (g : GaugeVec) (mk : String → ℚ → Sample) : List Sample :=
  g.map (fun p => mk p.1 p.2)

/-- Go `collect` (the lower-case method): emits `up`, validates the status,
runs the parsing loop, then the final `cpuload.Collect` / `workers.Collect` /
gated `connections.Collect`.  Returns the sample trace in emission order, the
updated state, and whether an error was returned to the caller.

When `readErr` is set with a 200 status, the dangling `if err != nil
{ continue }` at the top of the loop skips every line, and the cycle ends with
the gauge groups emitted and a nil error. -/
def collect (st : ExporterState) (fr : FetchResult) :
    List Sample × ExporterState × Bool :=
  match fr with
  | .transportError => ([Sample.up 0], st, true)
  | .response code body readErr =>
    if code ≠ 200 then ([Sample.up 1], st, true)
    else if readErr then
      ([Sample.up 1, Sample.cpuload st.cpuload] ++ gvCollect st.workers Sample.workers,
       st, false)
    else
      let r := processLines st false (splitLines body)
      if r.failed then (Sample.up 1 :: r.samples, r.state, true)
      else
        (Sample.up 1 :: r.samples ++
           [Sample.cpuload r.state.cpuload] ++
           gvCollect r.state.workers Sample.workers ++
           (if r.connInfo then gvCollect r.state.connections Sample.connections else []),
         r.state, false)

/-- Go `Collect` (the exported method): run `collect` under the lock; when it
returned an error, log it, increment the failure counter and emit it. -/
def Collect (st : ExporterState) (fr : FetchResult) :
    List Sample × ExporterState :=
  let r := collect st fr
  if r.2.2 then
    (r.1 ++ [Sample.scrapeFailures (r.2.1.scrapeFailures + 1)],
     { r.2.1 with scrapeFailures := r.2.1.scrapeFailures + 1 })
  else (r.1, r.2.1)

/-- Whether a key is one of the four connection fields. -/
def isConnKey (k : String) : Bool :=
  k = "ConnsTotal" || k = "ConnsAsyncWriting" ||
  k = "ConnsAsyncKeepAlive" || k = "ConnsAsyncClosing"

/-- Whether a sample belongs to the connections gauge group. -/
def isConnSample : Sample → Bool
  | .connections _ _ => true
  | _ => false

/-- Whether a sample belongs to the scoreboard gauge group. -/
def isScoreboardSample : Sample → Bool
  | .scoreboard _ _ => true
  | _ => false

/-- The availability value the cycle reports for a fetch outcome. -/
def availOf : FetchResult → ℚ
  | .transportError => 0
  | .response _ _ _ => 1

end Apache

attribute [local semireducible] Rat.add Rat.mul Rat.sub Rat.inv

namespace Apache

/-! ### GaugeVec lemmas -/

theorem gvSum_gvInc (g : GaugeVec) (l : String) :
    gvSum (gvInc g l) = gvSum g + 1 := by
  induction g with
  | nil => simp [gvInc, gvSum]
  | cons p rest ih =>
    by_cases h : p.1 = l
    · simp [gvInc, h, gvSum]; ring
    · simp [gvInc, h, gvSum, ih]; ring

theorem gvHasLabel_gvInc (g : GaugeVec) (l l' : String)
    (h : gvHasLabel g l = true) : gvHasLabel (gvInc g l') l = true := by
  induction g with
  | nil => simp [gvHasLabel] at h
  | cons p rest ih =>
    simp only [gvHasLabel, Bool.or_eq_true, decide_eq_true_eq] at h
    by_cases hp : p.1 = l'
    · rcases h with h | h
      · simp [gvInc, hp, gvHasLabel, h.symm.trans hp]
      · simp [gvInc, hp, gvHasLabel, gvHasLabel_gvInc, h]
    · simp only [gvInc, if_neg hp]
      rcases h with h | h
      · simp [gvHasLabel, h]
      · simp [gvHasLabel, ih h]

theorem gvInc_nonneg (g : GaugeVec) (l : String)
    (h : ∀ p ∈ g, 0 ≤ p.2) : ∀ p ∈ gvInc g l, 0 ≤ p.2 := by
  induction g with
  | nil =>
    intro p hp
    simp [gvInc] at hp
    simp [hp]
  | cons q rest ih =>
    intro p hp
    by_cases hq : q.1 = l
    · simp only [gvInc, hq, if_pos, List.mem_cons] at hp
      rcases hp with hp | hp
      · subst hp
        have := h q (List.mem_cons_self q rest)
        simpa using by linarith
      · exact h p (List.mem_cons_of_mem q hp)
    · simp only [gvInc, hq, if_neg, List.mem_cons, not_false_iff] at hp
      rcases hp with hp | hp
      · subst hp; exact h p (List.mem_cons_self p rest)
      · exact ih (fun r hr => h r (List.mem_cons_of_mem q hr)) p hp

theorem gvValue_gvInc_self (g : GaugeVec) (l : String) :
    gvValue (gvInc g l) l = gvValue g l + 1 := by
  induction g with
  | nil => simp [gvInc, gvValue]
  | cons p rest ih =>
    by_cases h : p.1 = l
    · simp [gvInc, h, gvValue]
    · simp [gvInc, h, gvValue, ih]

theorem gvValue_gvInc_ne (g : GaugeVec) (l l' : String) (h : l' ≠ l) :
    gvValue (gvInc g l') l = gvValue g l := by
  induction g with
  | nil => simp [gvInc, gvValue, h]
  | cons p rest ih =>
    by_cases hp : p.1 = l'
    · have : ¬ p.1 = l := fun hc => h (hp ▸ hc : l' = l)
      simp [gvInc, hp, gvValue, this, h]
    · simp only [gvInc, if_neg hp]
      by_cases hl : p.1 = l
      · simp [gvValue, hl]
      · simp [gvValue, hl, ih]

theorem gvValue_mem (g : GaugeVec) (l : String)
    (h : gvHasLabel g l = true) : (l, gvValue g l) ∈ g := by
  induction g with
  | nil => simp [gvHasLabel] at h
  | cons p rest ih =>
    simp only [gvHasLabel, Bool.or_eq_true, decide_eq_true_eq] at h
    by_cases hp : p.1 = l
    · cases p with
      | mk a b => simp_all [gvValue]
    · rcases h with h | h
      · exact absurd h hp
      · simp only [gvValue, hp, if_neg, not_false_iff]
        exact List.mem_cons_of_mem p (ih h)

theorem gvValue_ne_zero_hasLabel (g : GaugeVec) (l : String)
    (h : gvValue g l ≠ 0) : gvHasLabel g l = true := by
  induction g with
  | nil => simp [gvValue] at h
  | cons p rest ih =>
    by_cases hp : p.1 = l
    · simp [gvHasLabel, hp]
    · simp only [gvValue, hp, if_neg, not_false_iff] at h
      simp [gvHasLabel, hp, ih h]

theorem mem_gvInc_label (g : GaugeVec) (l : String) :
    ∀ p ∈ gvInc g l, p.1 = l ∨ p.1 ∈ g.map Prod.fst := by
  induction g with
  | nil => intro p hp; simp [gvInc] at hp; simp [hp]
  | cons q rest ih =>
    intro p hp
    by_cases hq : q.1 = l
    · simp only [gvInc, hq, if_pos, List.mem_cons] at hp
      rcases hp with hp | hp
      · left; rw [hp]
      · right; exact List.mem_map_of_mem Prod.fst (List.mem_cons_of_mem q hp)
    · simp only [gvInc, hq, if_neg, not_false_iff, List.mem_cons] at hp
      rcases hp with hp | hp
      · right; subst hp; simp
      · rcases ih p hp with h | h
        · exact Or.inl h
        · right; simp only [List.map_cons, List.mem_cons]; exact Or.inr h

theorem gvSet_ne_nil (g : GaugeVec) (l : String) (v : ℚ) :
    gvSet g l v ≠ [] := by
  cases g with
  | nil => simp [gvSet]
  | cons p rest =>
    by_cases h : p.1 = l <;> simp [gvSet, h]

/-! ### Scoreboard decoder lemmas -/

theorem gvSum_scoreboardFold (cs : List Char) (g : GaugeVec) :
    gvSum (cs.foldl (fun acc c => gvInc acc (decodeChar c)) g) =
      gvSum g + cs.length := by
  induction cs generalizing g with
  | nil => simp
  | cons c cs ih =>
    simp only [List.foldl_cons, ih, gvSum_gvInc, List.length_cons]
    push_cast
    ring

theorem gvHasLabel_scoreboardFold (cs : List Char) (g : GaugeVec) (l : String)
    (h : gvHasLabel g l = true) :
    gvHasLabel (cs.foldl (fun acc c => gvInc acc (decodeChar c)) g) l = true := by
  induction cs generalizing g with
  | nil => simpa using h
  | cons c cs ih => exact ih _ (gvHasLabel_gvInc _ _ _ h)

theorem nonneg_scoreboardFold (cs : List Char) (g : GaugeVec)
    (h : ∀ p ∈ g, 0 ≤ p.2) :
    ∀ p ∈ cs.foldl (fun acc c => gvInc acc (decodeChar c)) g, 0 ≤ p.2 := by
  induction cs generalizing g with
  | nil => simpa using h
  | cons c cs ih => exact ih _ (gvInc_nonneg _ _ h)

theorem mapped_label_mem (d : Char) (lbl : String)
    (h : scoreboardLabelMap d = some lbl) : lbl ∈ fixedScoreboardLabels := by
  rw [scoreboardLabelMap, Option.map_eq_some'] at h
  obtain ⟨p, hp, hlbl⟩ := h
  have := List.mem_of_find?_eq_some hp
  rw [fixedScoreboardLabels, ← hlbl]
  exact List.mem_map_of_mem Prod.snd this

theorem ne_singleton_of_len (a : String) (c : Char) (h : a.length ≠ 1) :
    a ≠ String.mk [c] := fun e => h (by rw [e]; rfl)

theorem fixed_labels_long : ∀ lbl ∈ fixedScoreboardLabels, 2 ≤ lbl.length := by
  decide

theorem init_hasLabel_fixed :
    ∀ l ∈ fixedScoreboardLabels, gvHasLabel scoreboardInit l = true := by
  decide

theorem init_sum_zero : gvSum scoreboardInit = 0 := by decide

theorem init_nonneg : ∀ p ∈ scoreboardInit, 0 ≤ p.2 := by decide

theorem init_labels_eq : scoreboardInit.map Prod.fst = fixedScoreboardLabels := by
  decide

theorem decodeChar_eq_singleton (c d : Char) (hc : scoreboardLabelMap c = none) :
    decodeChar d = String.mk [c] ↔ d = c := by
  constructor
  · intro h
    cases hd : scoreboardLabelMap d with
    | none =>
      rw [decodeChar, hd, Option.getD_none] at h
      have : [d] = [c] := by
        have := congrArg String.data h
        simpa using this
      simpa using this
    | some lbl =>
      rw [decodeChar, hd, Option.getD_some] at h
      have hmem := mapped_label_mem d lbl hd
      have hlen : 2 ≤ lbl.length := fixed_labels_long lbl hmem
      exact absurd h (ne_singleton_of_len _ _ (by omega))
  · intro h
    subst h
    simp [decodeChar, hc]

theorem gvValue_scoreboardFold_unmapped (cs : List Char) (g : GaugeVec) (c : Char)
    (hc : scoreboardLabelMap c = none) :
    gvValue (cs.foldl (fun acc e => gvInc acc (decodeChar e)) g) (String.mk [c]) =
      gvValue g (String.mk [c]) + cs.count c := by
  induction cs generalizing g with
  | nil => simp
  | cons d cs ih =>
    simp only [List.foldl_cons, ih]
    by_cases hd : d = c
    · subst hd
      rw [(decodeChar_eq_singleton d d hc).mpr rfl, gvValue_gvInc_self,
        List.count_cons_self]
      push_cast
      ring
    · have hne : decodeChar d ≠ String.mk [c] := by
        intro h
        exact hd ((decodeChar_eq_singleton c d hc).mp h)
      rw [gvValue_gvInc_ne _ _ _ hne, List.count_cons_of_ne (Ne.symm hd)]

theorem hasLabel_init_singleton (c : Char) :
    gvHasLabel scoreboardInit (String.mk [c]) = false := by
  show gvHasLabel [("idle", 0), ("startup", 0), ("read", 0), ("reply", 0),
    ("keepalive", 0), ("dns", 0), ("closing", 0), ("logging", 0),
    ("graceful_stop", 0), ("idle_cleanup", 0), ("open_slot", 0)] (String.mk [c]) = false
  simp only [gvHasLabel, Bool.or_eq_false_iff, decide_eq_false_iff_not]
  refine ⟨?_, ?_, ?_, ?_, ?_, ?_, ?_, ?_, ?_, ?_, ?_, trivial⟩ <;>
    exact ne_singleton_of_len _ _ (by decide)

theorem gvValue_of_not_hasLabel (g : GaugeVec) (l : String)
    (h : gvHasLabel g l = false) : gvValue g l = 0 := by
  induction g with
  | nil => simp [gvValue]
  | cons p rest ih =>
    simp only [gvHasLabel, Bool.or_eq_false_iff, decide_eq_false_iff_not] at h
    simp [gvValue, h.1, ih h.2]

theorem scoreboardFold_labels (cs : List Char) (g : GaugeVec) :
    ∀ p ∈ cs.foldl (fun acc c => gvInc acc (decodeChar c)) g,
      p.1 ∈ g.map Prod.fst ∨ ∃ d ∈ cs, p.1 = decodeChar d := by
  induction cs generalizing g with
  | nil => intro p hp; simp at hp; exact Or.inl (List.mem_map_of_mem Prod.fst hp)
  | cons d cs ih =>
    intro p hp
    simp only [List.foldl_cons] at hp
    rcases ih _ p hp with h | h
    · rw [List.mem_map] at h
      obtain ⟨q, hq, hq1⟩ := h
      rcases mem_gvInc_label g (decodeChar d) q hq with h | h
      · right; exact ⟨d, List.mem_cons_self d cs, by rw [← hq1, h]⟩
      · left; rw [← hq1]; exact h
    · obtain ⟨e, he, hpe⟩ := h
      right; exact ⟨e, List.mem_cons_of_mem d he, hpe⟩

/-- **C1**: For every scoreboard string `S`, the tally built by the scoreboard
decoder sums to the length of `S`, and each of the 11 fixed categories is
present in the output with a count `≥ 0`, even with zero occurrences in `S`. -/
theorem scoreboard_tally_invariant (s : String) :
    gvSum (scoreboardTally s) = (s.length : ℚ) ∧
    ∀ l ∈ fixedScoreboardLabels, ∃ v, (l, v) ∈ scoreboardTally s ∧ 0 ≤ v := by
  constructor
  · rw [scoreboardTally, gvSum_scoreboardFold, init_sum_zero, zero_add]
    rfl
  · intro l hl
    have h2 : gvHasLabel (scoreboardTally s) l = true :=
      gvHasLabel_scoreboardFold _ _ _ (init_hasLabel_fixed l hl)
    have h3 := gvValue_mem _ _ h2
    exact ⟨gvValue (scoreboardTally s) l, h3,
      nonneg_scoreboardFold _ _ init_nonneg _ h3⟩

/-- **C1 witness**: the scoreboard string `"_S."` tallies to sum 3 with the
`idle` category present and non-negative. -/
theorem scoreboard_tally_invariant_witness :
    gvSum (scoreboardTally "_S.") = ((("_S." : String).length : ℕ) : ℚ) ∧
    ∃ v, ("idle", v) ∈ scoreboardTally "_S." ∧ 0 ≤ v :=
  ⟨(scoreboard_tally_invariant "_S.").1,
   (scoreboard_tally_invariant "_S.").2 "idle" (by decide)⟩

/-- **C2**: a character `c` outside the decode table contributes a category
labelled by the literal character itself, counted exactly, and any category of
the tally is either one of the 11 fixed ones or the literal label of an
unrecognized character that occurs in the string. -/
theorem scoreboard_unknown_char (s : String) (c : Char)
    (hc : scoreboardLabelMap c = none) (hmem : c ∈ s.toList) :
    (∃ v, (String.mk [c], v) ∈ scoreboardTally s ∧ v = (s.toList.count c : ℚ)) ∧
    ∀ p ∈ scoreboardTally s, p.1 ∈ fixedScoreboardLabels ∨
      ∃ d, d ∈ s.toList ∧ scoreboardLabelMap d = none ∧ p.1 = String.mk [d] := by
  constructor
  · have hval : gvValue (scoreboardTally s) (String.mk [c]) = (s.toList.count c : ℚ) := by
      rw [scoreboardTally, gvValue_scoreboardFold_unmapped _ _ _ hc,
        gvValue_of_not_hasLabel _ _ (hasLabel_init_singleton c), zero_add]
    have hcount : s.toList.count c ≠ 0 := by
      have := List.count_pos_iff.mpr hmem
      omega
    have hne : gvValue (scoreboardTally s) (String.mk [c]) ≠ 0 := by
      rw [hval]
      exact_mod_cast hcount
    have hhas := gvValue_ne_zero_hasLabel _ _ hne
    exact ⟨gvValue (scoreboardTally s) (String.mk [c]), gvValue_mem _ _ hhas, hval⟩
  · intro p hp
    rcases scoreboardFold_labels s.toList scoreboardInit p hp with h | h
    · left
      rwa [init_labels_eq] at h
    · obtain ⟨d, hd, hpd⟩ := h
      cases hdm : scoreboardLabelMap d with
      | none => right; exact ⟨d, hd, hdm, by rwa [decodeChar, hdm, Option.getD_none] at hpd⟩
      | some lbl =>
        left
        rw [hpd, decodeChar, hdm, Option.getD_some]
        exact mapped_label_mem d lbl hdm

/-! ### Dispatch and loop lemmas -/

theorem dispatchKey_failed (st : ExporterState) (ci : Bool) (k v : String)
    (h : (dispatchKey st ci k v).failed = true) :
    dispatchKey st ci k v = ⟨[], st, ci, true⟩ := by
  unfold dispatchKey numHandler at *
  repeat' split at h <;> simp_all

theorem dispatchKey_counter (st : ExporterState) (ci : Bool) (k v : String) :
    (dispatchKey st ci k v).state.scrapeFailures = st.scrapeFailures := by
  unfold dispatchKey numHandler
  repeat' split <;> simp_all

theorem dispatchKey_ci_mono (st : ExporterState) (k v : String) :
    (dispatchKey st true k v).connInfo = true := by
  unfold dispatchKey numHandler
  repeat' split <;> simp_all

theorem dispatchKey_connInfo_src (st : ExporterState) (ci : Bool) (k v : String)
    (h : (dispatchKey st ci k v).connInfo = true) :
    ci = true ∨ isConnKey k = true := by
  unfold dispatchKey numHandler at h
  repeat' split at h <;> simp_all [isConnKey]

theorem dispatchKey_connKey (st : ExporterState) (ci : Bool) (k v : String)
    (h : isConnKey k = true) :
    (dispatchKey st ci k v).failed = true ∨
    (dispatchKey st ci k v).connInfo = true := by
  unfold dispatchKey numHandler
  simp only [isConnKey, Bool.or_eq_true, decide_eq_true_eq] at h
  repeat' split <;> simp_all

theorem dispatchKey_no_conn_sample (st : ExporterState) (ci : Bool) (k v : String) :
    ∀ smp ∈ (dispatchKey st ci k v).samples, isConnSample smp = false := by
  intro smp hs
  unfold dispatchKey numHandler at hs
  rcases hpf : parseFloat v with _ | val <;>
    simp only [hpf] at hs <;>
    repeat' split at hs <;>
    (try dsimp only at hs) <;>
    first
    | exact absurd hs (List.not_mem_nil smp)
    | (rw [List.mem_singleton] at hs; subst hs; rfl)
    | (rw [List.mem_map] at hs; obtain ⟨p, _, hp⟩ := hs; rw [← hp]; rfl)

theorem dispatchKey_conn_nonempty (st : ExporterState) (ci : Bool) (k v : String)
    (h : (dispatchKey st ci k v).connInfo = true) :
    ci = true ∨ (dispatchKey st ci k v).state.connections ≠ [] := by
  unfold dispatchKey numHandler at *
  repeat' split at h <;> simp_all [gvSet_ne_nil]

theorem dispatchKey_conn_preserve (st : ExporterState) (ci : Bool) (k v : String)
    (h : st.connections ≠ []) :
    (dispatchKey st ci k v).state.connections ≠ [] := by
  unfold dispatchKey numHandler
  repeat' split <;> simp_all [gvSet_ne_nil]

theorem processLines_counter (st : ExporterState) (ci : Bool) (ls : List String) :
    (processLines st ci ls).state.scrapeFailures = st.scrapeFailures := by
  induction ls generalizing st ci with
  | nil => rfl
  | cons l rest ih =>
    simp only [processLines]
    by_cases hf : (processLine st ci l).failed
    · simp only [hf, if_pos]
      exact dispatchKey_counter st ci _ _
    · simp only [hf, if_neg, Bool.false_eq_true, not_false_iff]
      rw [ih]
      exact dispatchKey_counter st ci _ _

theorem processLines_cons_failed (st : ExporterState) (ci : Bool) (l : String)
    (rest : List String) (h : (processLine st ci l).failed = true) :
    processLines st ci (l :: rest) = ⟨[], st, ci, true⟩ := by
  have hd := dispatchKey_failed st ci (splitkv l).1 (splitkv l).2 h
  simp only [processLines, processLine] at *
  rw [hd]
  rfl

theorem processLines_cons_ok (st : ExporterState) (ci : Bool) (l : String)
    (rest : List String) (h : (processLine st ci l).failed = false) :
    processLines st ci (l :: rest) =
      ⟨(processLine st ci l).samples ++
         (processLines (processLine st ci l).state
           (processLine st ci l).connInfo rest).samples,
       (processLines (processLine st ci l).state
         (processLine st ci l).connInfo rest).state,
       (processLines (processLine st ci l).state
         (processLine st ci l).connInfo rest).connInfo,
       (processLines (processLine st ci l).state
         (processLine st ci l).connInfo rest).failed⟩ := by
  simp only [processLines, h]
  simp

theorem processLines_append (st : ExporterState) (ci : Bool) (a b : List String)
    (h : (processLines st ci a).failed = false) :
    processLines st ci (a ++ b) =
      ⟨(processLines st ci a).samples ++
         (processLines (processLines st ci a).state
           (processLines st ci a).connInfo b).samples,
       (processLines (processLines st ci a).state
         (processLines st ci a).connInfo b).state,
       (processLines (processLines st ci a).state
         (processLines st ci a).connInfo b).connInfo,
       (processLines (processLines st ci a).state
         (processLines st ci a).connInfo b).failed⟩ := by
  induction a generalizing st ci with
  | nil => simp [processLines]
  | cons l rest ih =>
    by_cases hf : (processLine st ci l).failed
    · rw [processLines_cons_failed st ci l rest hf] at h
      simp at h
    · have hf2 : (processLine st ci l).failed = false := by simpa using hf
      have h2 : (processLines (processLine st ci l).state
          (processLine st ci l).connInfo rest).failed = false := by
        rw [processLines_cons_ok st ci l rest hf2] at h
        exact h
      rw [List.cons_append, processLines_cons_ok st ci l (rest ++ b) hf2,
        ih _ _ h2, processLines_cons_ok st ci l rest hf2]
      simp [List.append_assoc]

theorem processLines_ci_mono (st : ExporterState) (ls : List String) :
    (processLines st true ls).connInfo = true := by
  induction ls generalizing st with
  | nil => rfl
  | cons l rest ih =>
    simp only [processLines]
    by_cases hf : (processLine st true l).failed
    · simp only [hf, if_pos]
      exact dispatchKey_ci_mono st _ _
    · simp only [hf, Bool.false_eq_true, if_neg, not_false_iff]
      have hci := dispatchKey_ci_mono st (splitkv l).1 (splitkv l).2
      rw [show (processLine st true l).connInfo = true from hci]
      exact ih _

theorem processLines_connInfo_src (st : ExporterState) (ci : Bool)
    (ls : List String) (h : (processLines st ci ls).connInfo = true) :
    ci = true ∨ ∃ l ∈ ls, isConnKey (splitkv l).1 = true := by
  induction ls generalizing st ci with
  | nil => exact Or.inl h
  | cons l rest ih =>
    simp only [processLines] at h
    by_cases hf : (processLine st ci l).failed
    · simp only [hf, if_pos] at h
      rcases dispatchKey_connInfo_src st ci _ _ h with h | h
      · exact Or.inl h
      · exact Or.inr ⟨l, List.mem_cons_self l rest, h⟩
    · simp only [hf, Bool.false_eq_true, if_neg, not_false_iff] at h
      rcases ih _ _ h with h | h
      · rcases dispatchKey_connInfo_src st ci _ _ h with h | h
        · exact Or.inl h
        · exact Or.inr ⟨l, List.mem_cons_self l rest, h⟩
      · obtain ⟨l', hl', hk⟩ := h
        exact Or.inr ⟨l', List.mem_cons_of_mem l hl', hk⟩

theorem processLines_connKey (st : ExporterState) (ci : Bool) (ls : List String)
    (h : (processLines st ci ls).failed = false)
    (hkey : ∃ l ∈ ls, isConnKey (splitkv l).1 = true) :
    (processLines st ci ls).connInfo = true := by
  induction ls generalizing st ci with
  | nil => simp at hkey
  | cons l rest ih =>
    by_cases hf : (processLine st ci l).failed
    · rw [processLines_cons_failed st ci l rest hf] at h
      simp at h
    · simp only [processLines, hf, Bool.false_eq_true, if_neg,
        not_false_iff] at h ⊢
      obtain ⟨l', hl', hk⟩ := hkey
      rcases List.mem_cons.mp hl' with hl' | hl'
      · subst hl'
        rcases dispatchKey_connKey st ci _ _ hk with hcontra | hci
        · exact absurd hcontra hf
        · rw [show (processLine st ci l').connInfo = true from hci]
          exact processLines_ci_mono _ _
      · exact ih _ _ h ⟨l', hl', hk⟩

theorem processLines_no_conn_sample (st : ExporterState) (ci : Bool)
    (ls : List String) :
    ∀ smp ∈ (processLines st ci ls).samples, isConnSample smp = false := by
  induction ls generalizing st ci with
  | nil => simp [processLines]
  | cons l rest ih =>
    intro smp hs
    simp only [processLines] at hs
    by_cases hf : (processLine st ci l).failed
    · simp only [hf, if_pos] at hs
      exact dispatchKey_no_conn_sample st ci _ _ smp hs
    · simp only [hf, Bool.false_eq_true, if_neg, not_false_iff,
        List.mem_append] at hs
      rcases hs with hs | hs
      · exact dispatchKey_no_conn_sample st ci _ _ smp hs
      · exact ih _ _ smp hs

theorem processLines_conn_preserve (st : ExporterState) (ci : Bool)
    (ls : List String) (h : st.connections ≠ []) :
    (processLines st ci ls).state.connections ≠ [] := by
  induction ls generalizing st ci with
  | nil => exact h
  | cons l rest ih =>
    simp only [processLines]
    by_cases hf : (processLine st ci l).failed
    · simp only [hf, if_pos]
      exact dispatchKey_conn_preserve st ci _ _ h
    · simp only [hf, Bool.false_eq_true, if_neg, not_false_iff]
      exact ih _ _ (dispatchKey_conn_preserve st ci _ _ h)

theorem processLines_conn_nonempty (st : ExporterState) (ci : Bool)
    (ls : List String) (h : (processLines st ci ls).connInfo = true) :
    ci = true ∨ (processLines st ci ls).state.connections ≠ [] := by
  induction ls generalizing st ci with
  | nil => exact Or.inl h
  | cons l rest ih =>
    simp only [processLines] at h ⊢
    by_cases hf : (processLine st ci l).failed
    · simp only [hf, if_pos] at h ⊢
      exact dispatchKey_conn_nonempty st ci _ _ h
    · simp only [hf, Bool.false_eq_true, if_neg, not_false_iff] at h ⊢
      rcases ih _ _ h with hci | hne
      · rcases dispatchKey_conn_nonempty st ci _ _ hci with hci | hne
        · exact Or.inl hci
        · exact Or.inr (processLines_conn_preserve _ _ _ hne)
      · exact Or.inr hne

/-- Shape of a whole cycle on a 200-status, fully-read body whose parsing loop
reports no error. -/
theorem collect_ok (st : ExporterState) (body : String)
    (h : (processLines st false (splitLines body)).failed = false) :
    Collect st (FetchResult.response 200 body false) =
      (Sample.up 1 :: (processLines st false (splitLines body)).samples ++
         [Sample.cpuload (processLines st false (splitLines body)).state.cpuload] ++
         gvCollect (processLines st false (splitLines body)).state.workers
           Sample.workers ++
         (if (processLines st false (splitLines body)).connInfo then
            gvCollect (processLines st false (splitLines body)).state.connections
              Sample.connections
          else []),
       (processLines st false (splitLines body)).state) := by
  simp [Collect, collect, h]

/-- Shape of a whole cycle on a 200-status, fully-read body whose parsing loop
reports an error. -/
theorem collect_failed (st : ExporterState) (body : String)
    (h : (processLines st false (splitLines body)).failed = true) :
    Collect st (FetchResult.response 200 body false) =
      ((Sample.up 1 :: (processLines st false (splitLines body)).samples) ++
         [Sample.scrapeFailures
           ((processLines st false (splitLines body)).state.scrapeFailures + 1)],
       { (processLines st false (splitLines body)).state with
           scrapeFailures :=
             (processLines st false (splitLines body)).state.scrapeFailures + 1 }) := by
  simp [Collect, collect, h]

/-- **C2 witness**: in `"_z z"` the unrecognized character `z` appears as its
own category with count 2, and every category label is fixed or observed. -/
theorem scoreboard_unknown_char_witness :
    scoreboardLabelMap 'z' = none ∧ 'z' ∈ ("_z z" : String).toList ∧
    ((∃ v, (String.mk ['z'], v) ∈ scoreboardTally "_z z" ∧
        v = ((("_z z" : String).toList.count 'z' : ℕ) : ℚ)) ∧
     ∀ p ∈ scoreboardTally "_z z", p.1 ∈ fixedScoreboardLabels ∨
       ∃ d, d ∈ ("_z z" : String).toList ∧ scoreboardLabelMap d = none ∧
         p.1 = String.mk [d]) :=
  ⟨by decide, by decide,
   scoreboard_unknown_char "_z z" 'z' (by decide) (by decide)⟩

/-- **C3**: a transport-level fetch failure emits `up = 0`, increments and
emits the failure counter, emits no content-derived sample, and the cycle
still returns normally; a fetch with a non-200 status keeps the already
emitted `up = 1`, skips parsing, and likewise increments and emits the
failure counter. -/
theorem fetch_failure_behavior (st : ExporterState) (code : Nat) (body : String)
    (readErr : Bool) (hcode : code ≠ 200) :
    Collect st FetchResult.transportError =
      ([Sample.up 0, Sample.scrapeFailures (st.scrapeFailures + 1)],
       { st with scrapeFailures := st.scrapeFailures + 1 }) ∧
    Collect st (FetchResult.response code body readErr) =
      ([Sample.up 1, Sample.scrapeFailures (st.scrapeFailures + 1)],
       { st with scrapeFailures := st.scrapeFailures + 1 }) := by
  constructor
  · rfl
  · simp [Collect, collect, hcode]

/-- **C3 witness**: the failure behaviour at a fresh exporter and status 404. -/
theorem fetch_failure_behavior_witness :
    (404 : Nat) ≠ 200 ∧
    (Collect initialExporter FetchResult.transportError =
      ([Sample.up 0,
        Sample.scrapeFailures (initialExporter.scrapeFailures + 1)],
       { initialExporter with
           scrapeFailures := initialExporter.scrapeFailures + 1 }) ∧
     Collect initialExporter (FetchResult.response 404 "x" false) =
      ([Sample.up 1,
        Sample.scrapeFailures (initialExporter.scrapeFailures + 1)],
       { initialExporter with
           scrapeFailures := initialExporter.scrapeFailures + 1 })) :=
  ⟨by decide, fetch_failure_behavior initialExporter 404 "x" false (by decide)⟩

/-- **C4**: in every cycle whose fetch returned, the first emitted sample is
the availability sample, so it precedes every content-derived sample; and
whenever the failure counter changed during the cycle, the last emitted
sample is the failure-counter sample, so it is emitted before the cycle
returns. -/
theorem cycle_ordering (st : ExporterState) (fr : FetchResult) :
    (Collect st fr).1.head? = some (Sample.up (availOf fr)) ∧
    ((Collect st fr).2.scrapeFailures ≠ st.scrapeFailures →
      (Collect st fr).1.getLast? =
        some (Sample.scrapeFailures (Collect st fr).2.scrapeFailures)) := by
  cases fr with
  | transportError => exact ⟨rfl, fun _ => rfl⟩
  | response code body readErr =>
    by_cases hcode : code = 200
    · subst hcode
      by_cases hre : readErr = true
      · subst hre
        refine ⟨rfl, fun hne => absurd rfl hne⟩
      · have hre2 : readErr = false := by simpa using hre
        subst hre2
        by_cases hf : (processLines st false (splitLines body)).failed = true
        · rw [collect_failed st body hf]
          constructor
          · rfl
          · intro _
            dsimp only
            rw [List.getLast?_concat]
        · have hf2 : (processLines st false (splitLines body)).failed = false := by
            simpa using hf
          rw [collect_ok st body hf2]
          refine ⟨rfl, fun hne => ?_⟩
          exact absurd (processLines_counter st false (splitLines body)) hne
    · have hc : Collect st (FetchResult.response code body readErr) =
          ([Sample.up 1, Sample.scrapeFailures (st.scrapeFailures + 1)],
           { st with scrapeFailures := st.scrapeFailures + 1 }) := by
        simp [Collect, collect, hcode]
      rw [hc]
      exact ⟨rfl, fun _ => rfl⟩

/-- **C5**: when a recognized numeric field fails to parse, the cycle's result
is exactly the samples of the lines before it (no later line is processed —
the result does not depend on `rest`), those earlier samples stay emitted, a
parse error is reported and the failure counter is incremented by exactly 1
and emitted. -/
theorem parse_error_aborts (st : ExporterState) (body : String)
    (pre rest : List String) (bad : String)
    (hbody : splitLines body = pre ++ bad :: rest)
    (hpre : (processLines st false pre).failed = false)
    (hbad : (processLine (processLines st false pre).state
      (processLines st false pre).connInfo bad).failed = true) :
    Collect st (FetchResult.response 200 body false) =
      ((Sample.up 1 :: (processLines st false pre).samples) ++
         [Sample.scrapeFailures
           ((processLines st false pre).state.scrapeFailures + 1)],
       { (processLines st false pre).state with
           scrapeFailures :=
             (processLines st false pre).state.scrapeFailures + 1 }) := by
  have hall : processLines st false (splitLines body) =
      ⟨(processLines st false pre).samples, (processLines st false pre).state,
       (processLines st false pre).connInfo, true⟩ := by
    rw [hbody, processLines_append st false pre (bad :: rest) hpre,
      processLines_cons_failed _ _ _ _ hbad]
    simp
  have hfail : (processLines st false (splitLines body)).failed = true := by
    rw [hall]
  rw [collect_failed st body hfail, hall]

/-- **C5 witness**: two valid lines, then `CPULoad: not-a-number`, then a line
that is never reached; the two counter samples are emitted, the failure
counter goes from 0 to 1 and is emitted. -/
theorem parse_error_aborts_witness :
    splitLines "Total Accesses: 1000\nTotal kBytes: 512\nCPULoad: not-a-number\nUptime: 30" =
      ["Total Accesses: 1000", "Total kBytes: 512"] ++
        "CPULoad: not-a-number" :: ["Uptime: 30"] ∧
    (processLines initialExporter false
      ["Total Accesses: 1000", "Total kBytes: 512"]).failed = false ∧
    (processLine (processLines initialExporter false
        ["Total Accesses: 1000", "Total kBytes: 512"]).state
      (processLines initialExporter false
        ["Total Accesses: 1000", "Total kBytes: 512"]).connInfo
      "CPULoad: not-a-number").failed = true ∧
    Collect initialExporter (FetchResult.response 200
        "Total Accesses: 1000\nTotal kBytes: 512\nCPULoad: not-a-number\nUptime: 30" false) =
      ((Sample.up 1 :: (processLines initialExporter false
           ["Total Accesses: 1000", "Total kBytes: 512"]).samples) ++
         [Sample.scrapeFailures
           ((processLines initialExporter false
              ["Total Accesses: 1000", "Total kBytes: 512"]).state.scrapeFailures + 1)],
       { (processLines initialExporter false
            ["Total Accesses: 1000", "Total kBytes: 512"]).state with
           scrapeFailures :=
             (processLines initialExporter false
               ["Total Accesses: 1000", "Total kBytes: 512"]).state.scrapeFailures + 1 }) :=
  ⟨by decide, by decide, by decide,
   parse_error_aborts initialExporter
     "Total Accesses: 1000\nTotal kBytes: 512\nCPULoad: not-a-number\nUptime: 30"
     ["Total Accesses: 1000", "Total kBytes: 512"] ["Uptime: 30"]
     "CPULoad: not-a-number" (by decide) (by decide) (by decide)⟩

/-- **C6**: in the emitting step of a cycle that parsed without error, every
child of the worker gauge group is emitted, and a connections-labelled sample
is emitted iff some line of the body carries one of the four connection keys;
concretely, a body of exactly `ConnsTotal: 5` on a fresh exporter emits
exactly one connection sample, `total = 5`. -/
theorem connections_gating (st : ExporterState) (body : String)
    (h : (processLines st false (splitLines body)).failed = false) :
    (∀ p ∈ (processLines st false (splitLines body)).state.workers,
        Sample.workers p.1 p.2 ∈
          (Collect st (FetchResult.response 200 body false)).1) ∧
    ((∃ smp ∈ (Collect st (FetchResult.response 200 body false)).1,
        isConnSample smp = true) ↔
      ∃ l ∈ splitLines body, isConnKey (splitkv l).1 = true) ∧
    Collect initialExporter (FetchResult.response 200 "ConnsTotal: 5" false) =
      ([Sample.up 1, Sample.cpuload 0, Sample.connections "total" 5],
       ⟨0, [], [], [("total", 5)], 0⟩) := by
  rw [collect_ok st body h]
  refine ⟨?_, ⟨?_, ?_⟩, by decide⟩
  · intro p hp
    have hmem : Sample.workers p.1 p.2 ∈
        gvCollect (processLines st false (splitLines body)).state.workers
          Sample.workers :=
      List.mem_map_of_mem _ hp
    simp only [List.mem_cons, List.mem_append]
    tauto
  · rintro ⟨smp, hsmp, hconn⟩
    by_cases hci : (processLines st false (splitLines body)).connInfo = true
    · rcases processLines_connInfo_src st false _ hci with h0 | h0
      · simp at h0
      · exact h0
    · have hci2 : (processLines st false (splitLines body)).connInfo = false := by
        simpa using hci
      rw [hci2] at hsmp
      simp only [Bool.false_eq_true, if_false, List.append_nil, List.mem_cons,
        List.mem_append, List.mem_singleton] at hsmp
      rcases hsmp with ((h1 | h1) | (h1 | hnil)) | h1
      · rw [h1] at hconn
        simp [isConnSample] at hconn
      · rw [processLines_no_conn_sample st false (splitLines body) smp h1]
          at hconn
        simp at hconn
      · rw [h1] at hconn
        simp [isConnSample] at hconn
      · simp at hnil
      · simp only [gvCollect, List.mem_map] at h1
        obtain ⟨p, _, hps⟩ := h1
        rw [← hps] at hconn
        simp [isConnSample] at hconn
  · intro hkey
    have hci := processLines_connKey st false (splitLines body) h hkey
    have hne : (processLines st false (splitLines body)).state.connections ≠ [] := by
      rcases processLines_conn_nonempty st false (splitLines body) hci with h0 | h0
      · simp at h0
      · exact h0
    obtain ⟨q, hq⟩ := List.exists_mem_of_ne_nil _ hne
    refine ⟨Sample.connections q.1 q.2, ?_, rfl⟩
    rw [hci]
    have hmem : Sample.connections q.1 q.2 ∈
        gvCollect (processLines st false (splitLines body)).state.connections
          Sample.connections :=
      List.mem_map_of_mem _ hq
    simp only [if_true, List.mem_cons, List.mem_append]
    tauto

/-- **C6 witness**: instantiated at a fresh exporter with body `ConnsTotal: 5`. -/
theorem connections_gating_witness :
    (processLines initialExporter false (splitLines "ConnsTotal: 5")).failed = false ∧
    ((∀ p ∈ (processLines initialExporter false
          (splitLines "ConnsTotal: 5")).state.workers,
        Sample.workers p.1 p.2 ∈
          (Collect initialExporter (FetchResult.response 200 "ConnsTotal: 5" false)).1) ∧
     ((∃ smp ∈ (Collect initialExporter
          (FetchResult.response 200 "ConnsTotal: 5" false)).1,
         isConnSample smp = true) ↔
       ∃ l ∈ splitLines "ConnsTotal: 5", isConnKey (splitkv l).1 = true) ∧
     Collect initialExporter (FetchResult.response 200 "ConnsTotal: 5" false) =
       ([Sample.up 1, Sample.cpuload 0, Sample.connections "total" 5],
        ⟨0, [], [], [("total", 5)], 0⟩)) :=
  ⟨by decide, connections_gating initialExporter "ConnsTotal: 5" (by decide)⟩

/-- **C7**: the documented four-line body on a fresh exporter emits exactly
`up = 1`, the accesses counter 1000, the bytes counter `512 × 1024 = 524288`,
the cpuload gauge, and the two worker gauges 3 (busy) and 7 (idle) — with no
connection samples, no scoreboard samples, and the failure counter
unchanged. -/
theorem basic_scenario_cycle :
    Collect initialExporter (FetchResult.response 200
        "Total Accesses: 1000\nTotal kBytes: 512\nBusyWorkers: 3\nIdleWorkers: 7\n" false) =
      ([Sample.up 1, Sample.accessesTotal 1000, Sample.sentBytesTotal 524288,
        Sample.cpuload 0, Sample.workers "busy" 3, Sample.workers "idle" 7],
       ⟨0, [("busy", 3), ("idle", 7)], [], [], 0⟩) ∧
    (∀ smp ∈ (Collect initialExporter (FetchResult.response 200
        "Total Accesses: 1000\nTotal kBytes: 512\nBusyWorkers: 3\nIdleWorkers: 7\n" false)).1,
      isConnSample smp = false ∧ isScoreboardSample smp = false) ∧
    (Collect initialExporter (FetchResult.response 200
        "Total Accesses: 1000\nTotal kBytes: 512\nBusyWorkers: 3\nIdleWorkers: 7\n" false)).2.scrapeFailures
      = initialExporter.scrapeFailures := by
  exact ⟨by decide, by decide, by decide⟩

/-- **C10**: a line whose key is `Scoreboard` can never fail: the decoder is a
total function, the arm sets no parse error, leaves the failure counter
untouched, and emits exactly one sample per tally category. -/
theorem scoreboard_line_safe (st : ExporterState) (ci : Bool) (l : String)
    (h : (splitkv l).1 = "Scoreboard") :
    (processLine st ci l).failed = false ∧
    (processLine st ci l).state.scrapeFailures = st.scrapeFailures ∧
    (processLine st ci l).samples =
      (scoreboardTally (splitkv l).2).map (fun p => Sample.scoreboard p.1 p.2) := by
  rw [processLine, h]
  exact ⟨rfl, rfl, rfl⟩

/-- **C10 witness**: a Scoreboard line with recognized and unrecognized
characters processes without error on a fresh exporter. -/
theorem scoreboard_line_safe_witness :
    (splitkv "Scoreboard: _SRWKDCLGI.z").1 = "Scoreboard" ∧
    ((processLine initialExporter false "Scoreboard: _SRWKDCLGI.z").failed = false ∧
     (processLine initialExporter false "Scoreboard: _SRWKDCLGI.z").state.scrapeFailures =
       initialExporter.scrapeFailures ∧
     (processLine initialExporter false "Scoreboard: _SRWKDCLGI.z").samples =
       (scoreboardTally (splitkv "Scoreboard: _SRWKDCLGI.z").2).map
         (fun p => Sample.scoreboard p.1 p.2)) :=
  ⟨by decide, scoreboard_line_safe initialExporter false
    "Scoreboard: _SRWKDCLGI.z" (by decide)⟩

/-! ### splitkv lemmas -/

theorem toList_append (a b : String) : (a ++ b).toList = a.toList ++ b.toList := by
  cases a
  cases b
  rfl

theorem mk_toList (s : String) : String.mk s.toList = s := rfl

theorem takeWhile_no_colon (a b : List Char) (h : (':' : Char) ∉ a) :
    (a ++ ':' :: b).takeWhile (fun c => c ≠ ':') = a := by
  induction a with
  | nil => simp
  | cons x xs ih =>
    simp only [List.mem_cons, not_or] at h
    simp only [List.cons_append, List.takeWhile_cons, decide_eq_true_eq]
    rw [if_pos (Ne.symm h.1), ih h.2]

theorem dropWhile_no_colon (a b : List Char) (h : (':' : Char) ∉ a) :
    (a ++ ':' :: b).dropWhile (fun c => c ≠ ':') = ':' :: b := by
  induction a with
  | nil => simp
  | cons x xs ih =>
    simp only [List.mem_cons, not_or] at h
    simp only [List.cons_append, List.dropWhile_cons, decide_eq_true_eq]
    rw [if_pos (Ne.symm h.1), ih h.2]

/-- **C8 counterexample**: `splitkv` applied to a colonless line keeps the
surrounding whitespace of the key, so the claim that key and value are always
trimmed fails on `" NoColonLine "`. -/
theorem splitkv_untrimmed :
    splitkv " NoColonLine " = (" NoColonLine ", "") ∧
    trimStr (splitkv " NoColonLine ").1 ≠ (splitkv " NoColonLine ").1 := by
  decide

/-- **C8 amended**: a line containing a colon is split at the first colon only
(later colons remain in the value) and both resulting sides are trimmed; a
nonempty line without a colon yields the whole untrimmed line as key and an
empty value. -/
theorem splitkv_amended (k v s : String) (hk : (':' : Char) ∉ k.toList)
    (hs : s ≠ "") (hsc : (':' : Char) ∉ s.toList) :
    splitkv (k ++ ":" ++ v) = (trimStr k, trimStr v) ∧ splitkv s = (s, "") := by
  constructor
  · have hdata : (k ++ ":" ++ v).toList = k.toList ++ ':' :: v.toList := by
      rw [toList_append, toList_append]
      have hc : (":" : String).toList = [':'] := rfl
      rw [hc, List.append_assoc]
      rfl
    have hlen : ¬ (k ++ ":" ++ v).length = 0 := by
      show ¬ (k ++ ":" ++ v).toList.length = 0
      rw [hdata]
      simp
    have hmem : (':' : Char) ∈ (k ++ ":" ++ v).toList := by
      rw [hdata]
      simp
    unfold splitkv
    rw [if_neg hlen, if_pos hmem, hdata, takeWhile_no_colon _ _ hk,
      dropWhile_no_colon _ _ hk]
    simp only [List.tail_cons]
    rw [mk_toList k, mk_toList v]
  · have hlen : ¬ s.length = 0 := by
      cases s with
      | mk data =>
        cases data with
        | nil => exact absurd rfl hs
        | cons c cs =>
          show ¬ (c :: cs).length = 0
          simp
    unfold splitkv
    rw [if_neg hlen, if_neg hsc]

/-- **C8 witness**: the amended behaviour at a real status line whose value
contains a further colon, and at a padded colonless line. -/
theorem splitkv_amended_witness :
    (':' : Char) ∉ ("Total kBytes" : String).toList ∧
    (" NoColon" : String) ≠ "" ∧ (':' : Char) ∉ (" NoColon" : String).toList ∧
    (splitkv ("Total kBytes" ++ ":" ++ " 512 : x ") =
       (trimStr "Total kBytes", trimStr " 512 : x ") ∧
     splitkv " NoColon" = (" NoColon", "")) :=
  ⟨by decide, by decide, by decide,
   splitkv_amended "Total kBytes" " 512 : x " " NoColon"
     (by decide) (by decide) (by decide)⟩

/-- **C9 counterexample**: the claim that no sample data outlives a cycle
fails — a workers gauge set in cycle 1 is re-emitted in cycle 2 whose body is
empty, and the same empty body on a fresh exporter emits a different sample
sequence. -/
theorem retained_state_counterexample :
    Sample.workers "busy" 3 ∈
      (Collect (Collect initialExporter
          (FetchResult.response 200 "BusyWorkers: 3" false)).2
        (FetchResult.response 200 "" false)).1 ∧
    (Collect (Collect initialExporter
        (FetchResult.response 200 "BusyWorkers: 3" false)).2
      (FetchResult.response 200 "" false)).1 ≠
    (Collect initialExporter (FetchResult.response 200 "" false)).1 := by
  decide

/-- **C9 amended**: the failure counter is retained across cycles and moves by
0 or exactly 1 per cycle (monotone, never reset), but it is not the only
retained data: gauge state persists as well, so a gauge value set in an
earlier cycle can be re-emitted in a later cycle whose body does not contain
it. -/
theorem counter_monotonic (st : ExporterState) (fr : FetchResult) :
    ((Collect st fr).2.scrapeFailures = st.scrapeFailures ∨
     (Collect st fr).2.scrapeFailures = st.scrapeFailures + 1) ∧
    Sample.workers "busy" 3 ∈
      (Collect (Collect initialExporter
          (FetchResult.response 200 "BusyWorkers: 3" false)).2
        (FetchResult.response 200 "" false)).1 := by
  refine ⟨?_, by decide⟩
  cases fr with
  | transportError => exact Or.inr rfl
  | response code body readErr =>
    by_cases hcode : code = 200
    · subst hcode
      by_cases hre : readErr = true
      · subst hre
        exact Or.inl rfl
      · have hre2 : readErr = false := by simpa using hre
        subst hre2
        by_cases hf : (processLines st false (splitLines body)).failed = true
        · right
          rw [collect_failed st body hf]
          dsimp only
          rw [processLines_counter]
        · have hf2 : (processLines st false (splitLines body)).failed = false := by
            simpa using hf
          left
          rw [collect_ok st body hf2]
          dsimp only
          rw [processLines_counter]
    · right
      simp [Collect, collect, hcode]

/-- **C4 witness**: ordering at a fresh exporter on a transport failure. -/
theorem cycle_ordering_witness :
    (Collect initialExporter FetchResult.transportError).1.head? =
      some (Sample.up (availOf FetchResult.transportError)) ∧
    ((Collect initialExporter FetchResult.transportError).2.scrapeFailures ≠
        initialExporter.scrapeFailures →
      (Collect initialExporter FetchResult.transportError).1.getLast? =
        some (Sample.scrapeFailures
          (Collect initialExporter FetchResult.transportError).2.scrapeFailures)) :=
  cycle_ordering initialExporter FetchResult.transportError

end Apache
